import Mathlib

/-!
Verification of the form-schema diff and version-control engine of the
FormFlow repository (an AI-assisted form builder).

The frontend sources (FormEditor.jsx, api.js, FormDiffView.jsx,
ShortAnswer.jsx) are embedded directly from the code.  The backend
Schema Differ and Version Store are not among the inspected sources
(only their callers and the FormDiffView test fixtures are), so those
two components are modelled from the specification, as marked in the
doc comments below.
-/

namespace FormFlow

/-- Component kind: the two supported question types. -/
inductive CompType where
  | shortAnswer
  | multipleChoice
deriving DecidableEq, Repr

/-- Per-component data fields (spec section 3: question, required,
options with order, allowMultiple, optional maxLength). -/
structure ComponentData where
  question : String
  required : Bool
  options : List String
  allowMultiple : Bool
  maxLength : Option Nat
deriving DecidableEq, Repr

/-- A form component: stable caller-assigned id, kind, and data. -/
structure FormComponent where
  id : String
  type : CompType
  data : ComponentData
deriving DecidableEq, Repr

/-- A form schema: title, description, ordered component list. -/
structure FormSchema where
  title : String
  description : String
  components : List FormComponent
deriving DecidableEq, Repr

/-- Which metadata field a metadata diff change concerns. -/
inductive MetaField where
  | title
  | description
deriving DecidableEq, Repr

/-- A single change in a diff, one of the four tagged variants of the
data model. -/
inductive DiffChange where
  | removed (componentId : String) (component : FormComponent)
  | added (componentId : String) (component : FormComponent)
  | modified (componentId : String) (before after : FormComponent)
  | metadata (field : MetaField) (before after : String)
deriving DecidableEq, Repr

/-- A diff: human-readable summary plus the ordered change list. -/
structure Diff where
  summary : String
  changes : List DiffChange
deriving DecidableEq, Repr

/-- The ids of a component list, in order. -/
def componentIds (cs : List FormComponent) : List String :=
  cs.map (fun c => c.id)

/-- Whether some component of the list has the given id. -/
def containsId (cs : List FormComponent) (i : String) : Bool :=
  cs.any (fun c => c.id == i)

/-- The first component of the list with the given id, if any. -/
def findById (cs : List FormComponent) (i : String) : Option FormComponent :=
  cs.find? (fun c => c.id == i)

/-- Modelled from the spec: the Schema Differ and Component Matcher of
the backend are not among the inspected sources.  Step 2 of the differ
algorithm (spec 4.2): one removed change for each component of before
whose id does not occur in after, in before order, carrying the before
component. -/
def removedChanges (b a : FormSchema) : List DiffChange :=
  (b.components.filter (fun c => !(containsId a.components c.id))).map
    (fun c => DiffChange.removed c.id c)

/-- Modelled from the spec: step 3 of the differ algorithm (spec 4.2):
one added change for each component of after whose id does not occur in
before, in after order, carrying the after component. -/
def addedChanges (b a : FormSchema) : List DiffChange :=
  (a.components.filter (fun c => !(containsId b.components c.id))).map
    (fun c => DiffChange.added c.id c)

/-- Modelled from the spec: step 4 of the differ algorithm (spec 4.2):
for each common id, deep structural comparison of the before and after
components; unequal pairs yield a modified change, equal pairs yield
nothing. -/
def modifiedChanges (b a : FormSchema) : List DiffChange :=
  b.components.filterMap (fun c =>
    match findById a.components c.id with
    | some c2 => if c = c2 then none else some (DiffChange.modified c.id c c2)
    | none => none)

/-- Modelled from the spec: step 5 of the differ algorithm (spec 4.2):
title and description comparison. -/
def metadataChanges (b a : FormSchema) : List DiffChange :=
  (if b.title = a.title then [] else
    [DiffChange.metadata MetaField.title b.title a.title]) ++
  (if b.description = a.description then [] else
    [DiffChange.metadata MetaField.description b.description a.description])

/-- Modelled from the spec: step 6 of the differ algorithm (spec 4.2):
the summary clauses, each omitted when its count is zero. -/
def summaryClauses (nAdded nRemoved nModified : Nat) (meta : Bool) : List String :=
  (if nAdded = 0 then [] else
    ["Added " ++ toString nAdded ++ " component(s)"]) ++
  (if nRemoved = 0 then [] else
    ["Removed " ++ toString nRemoved ++ " component(s)"]) ++
  (if nModified = 0 then [] else
    ["Modified " ++ toString nModified ++ " component(s)"]) ++
  (if meta then ["Updated metadata"] else [])

/-- Modelled from the spec: the summary string, with the fallback used
when there are no changes at all. -/
def buildSummary (nAdded nRemoved nModified : Nat) (meta : Bool) : String :=
  let cl := summaryClauses nAdded nRemoved nModified meta
  if cl.isEmpty then "No changes" else String.intercalate "; " cl

/-- Error kinds of the diff and version engine (spec section 7). -/
inductive EngineError where
  | invalidSchema
deriving DecidableEq, Repr

/-- Modelled from the spec: the pure body of the Schema Differ, change
groups ordered removed, added, modified, metadata. -/
def diffCore (b a : FormSchema) : Diff :=
  let rem := removedChanges b a
  let add := addedChanges b a
  let mo := modifiedChanges b a
  let meta := metadataChanges b a
  { summary := buildSummary add.length rem.length mo.length (!meta.isEmpty),
    changes := rem ++ add ++ mo ++ meta }

/-- Modelled from the spec: the Schema Differ entry point; duplicate
component ids within either schema are rejected as InvalidSchema (spec
4.1 and section 7), otherwise the computation is total. -/
def schemaDiff (b a : FormSchema) : Except EngineError Diff :=
  if (componentIds b.components).Nodup ∧ (componentIds a.components).Nodup
  then Except.ok (diffCore b a)
  else Except.error EngineError.invalidSchema

/-- A version snapshot: schema, change description, creation time
(timestamps are modelled as natural numbers). -/
structure VersionSnapshot where
  schema : FormSchema
  changeDescription : String
  createdAt : Nat
deriving DecidableEq, Repr

/-- A version history.  The spec stores snapshots oldest first and
appends at the end; here the list is kept most-recent-first, so that
push conses and undo pops, an order-reversed but equivalent
representation. -/
abbrev VersionHistory : Type := List VersionSnapshot

/-- Modelled from the spec: the Version Store is not among the
inspected sources.  createInitial seeds the history with a single
snapshot (spec 4.3). -/
def createInitial (s : FormSchema) (t : Nat) : VersionHistory :=
  [{ schema := s, changeDescription := "Initial version", createdAt := t }]

/-- Modelled from the spec: push appends a new snapshot, which is the
new most recent entry (spec 4.3).  The creation time comes from the
clock, passed here explicitly. -/
def push (h : VersionHistory) (s : FormSchema) (d : String) (t : Nat) : VersionHistory :=
  { schema := s, changeDescription := d, createdAt := t } :: h

/-- Modelled from the spec: the schema of the most recent snapshot
(spec 4.3). -/
def currentSchema (h : VersionHistory) : Option FormSchema :=
  (List.head? h).map (fun sn => sn.schema)

/-- Result of an undo, mirroring the undo HTTP response of spec
section 6 ({ success, schema?, message? }) together with the resulting
history; on failure the history is returned unchanged (spec 4.3 and
section 7: NoHistoryToUndo is a normal result, not an exception). -/
structure UndoResult where
  history : VersionHistory
  success : Bool
  schema : Option FormSchema
  message : Option String
deriving DecidableEq, Repr

/-- Modelled from the spec: undo removes the most recent snapshot when
the history has more than one entry and reports the newly current
schema; on a single-entry history it fails with NoHistoryToUndo and
leaves the history unchanged (spec 4.3). -/
def undo (h : VersionHistory) : UndoResult :=
  match h with
  | _top :: prev :: rest =>
      { history := prev :: rest, success := true,
        schema := some prev.schema, message := none }
  | other =>
      { history := other, success := false,
        schema := none, message := some "No history to undo" }

/-- JavaScript string-or fallback: the expression a or-else b on strings
is b when a is absent or empty (falsy), else a. -/
def jsOrStr (o : Option String) (d : String) : String :=
  match o with
  | some s => if s = "" then d else s
  | none => d

/-- The form object held by FormEditor.jsx: title, description and the
current schema (null before load). -/
structure FormState where
  title : String
  description : String
  schema : Option FormSchema
deriving DecidableEq, Repr

/-- The diffData React state of FormEditor.jsx while reviewing an AI
edit (none models the cleared value whose diff field is null). -/
structure DiffData where
  diff : Diff
  oldComponents : List FormComponent
  newComponents : List FormComponent
  oldTitle : String
  oldDescription : String
deriving DecidableEq, Repr

/-- The React state of FormEditor.jsx relevant to the edit, save and
undo handlers.  documentsCount stands for documents.length. -/
structure EditorState where
  form : FormState
  editedTitle : String
  editedDescription : String
  editedComponents : List FormComponent
  errorMsg : String
  successMsg : String
  saving : Bool
  processing : Bool
  diffMode : Bool
  diffData : Option DiffData
  query : String
  documentsCount : Nat
deriving DecidableEq, Repr

/-- The body of the edit HTTP response consumed by handleAIEdit:
schema, optional diff, optional title and description. -/
structure EditResult where
  schema : FormSchema
  diff : Option Diff
  title : Option String
  description : Option String
deriving DecidableEq, Repr

/-- The net state transition of handleUndo in FormEditor.jsx (lines
199-221) once the undo response r has arrived: on success the form
schema and edited components are replaced from r.schema and a success
message is set; on failure the error message is r.message with the
fallback used when it is falsy, and no schema state is touched. -/
def handleUndoResult (st : EditorState) (r : UndoResult) : EditorState :=
  if r.success then
    { st with
      form := { st.form with schema := r.schema },
      editedComponents :=
        match r.schema with
        | some s => s.components
        | none => [],
      errorMsg := "", successMsg := "Reverted to previous version",
      saving := false }
  else
    { st with
      errorMsg := jsOrStr r.message "Cannot undo further",
      successMsg := "", saving := false }

/-- The net state transition of handleUndoChanges in FormEditor.jsx
(lines 160-196): on success the schema state is restored from r.schema,
the edited title and description are reset from the form object, and
diff mode is exited; on failure only the error message is set. -/
def handleUndoChangesResult (st : EditorState) (r : UndoResult) : EditorState :=
  if r.success then
    { st with
      form := { st.form with schema := r.schema },
      editedTitle := st.form.title,
      editedDescription := st.form.description,
      editedComponents :=
        match r.schema with
        | some s => s.components
        | none => [],
      diffMode := false,
      diffData := none,
      errorMsg := "", successMsg := "Changes reverted successfully",
      saving := false }
  else
    { st with
      errorMsg := jsOrStr r.message "Failed to undo changes",
      successMsg := "", saving := false }

/-- The net state transition of the success path of handleAIEdit in
FormEditor.jsx (lines 101-142): the form and edited state are updated
from the response, query and documents are cleared, and diff mode is
entered exactly when the response diff exists and has a non-empty
change list (lines 126-135); otherwise diffMode and diffData are left
as they were. -/
def handleAIEditSuccess (st : EditorState) (r : EditResult) : EditorState :=
  let base : EditorState :=
    { st with
      form := { st.form with
        schema := some r.schema,
        title := jsOrStr r.title st.form.title,
        description := jsOrStr r.description st.form.description },
      editedTitle := jsOrStr r.title st.form.title,
      editedDescription := jsOrStr r.description st.form.description,
      editedComponents := r.schema.components,
      query := "", documentsCount := 0,
      errorMsg := "", successMsg := "AI changes ready for review",
      processing := false }
  match r.diff with
  | some d =>
      if d.changes.length > 0 then
        { base with
          diffMode := true,
          diffData := some
            { diff := d,
              oldComponents := st.editedComponents,
              newComponents := r.schema.components,
              oldTitle := st.editedTitle,
              oldDescription := st.editedDescription } }
      else base
  | none => base

/-- Disabled condition of the Undo header button (FormEditor.jsx lines
354-360): saving or diffMode. -/
def undoButtonDisabled (st : EditorState) : Bool :=
  st.saving || st.diffMode

/-- Disabled condition of the Save header button (FormEditor.jsx lines
361-367): saving or diffMode. -/
def saveButtonDisabled (st : EditorState) : Bool :=
  st.saving || st.diffMode

/-- Disabled condition of the AI edit submit button (FormEditor.jsx
lines 556-559): processing, or no query and no documents, or
diffMode. -/
def aiSubmitDisabled (st : EditorState) : Bool :=
  st.processing || (st.query == "" && st.documentsCount == 0) || st.diffMode

/-- The JSON body posted by saveForm in api.js (lines 79-82). -/
structure SaveRequestBody where
  schema : FormSchema
  changeDescription : String
deriving DecidableEq, Repr

/-- The request body produced by calling saveForm from api.js (lines
79-82).  The function is declared with parameters (formId, schema,
changeDescription) and posts the object of schema and
changeDescription; the title and description arguments that handleSave
in FormEditor.jsx additionally passes (lines 230-236) are surplus
JavaScript arguments, bound to no parameter and absent from the posted
body, which the extra parameters here reflect. -/
def saveFormRequestBody (schema : FormSchema) (changeDescription : String)
    (_title _description : String) : SaveRequestBody :=
  { schema := schema, changeDescription := changeDescription }

/-- Styling kind of an item of the FormDiffView merged view. -/
inductive DiffItemType where
  | removed
  | added
  | unchanged
deriving DecidableEq, Repr

/-- One item of the merged diff view built by buildDiffView in
FormDiffView.jsx: styling kind, the component shown, and the React
key. -/
structure DiffItem where
  type : DiffItemType
  component : FormComponent
  key : String
deriving DecidableEq, Repr

/-- One step of the forEach loop over diff.changes in buildDiffView
(FormDiffView.jsx lines 75-109), threading the accumulated items and
the processed id collection: metadata changes are skipped, a removed
change pushes one removed item, an added change one added item, a
modified change a removed item for the before component followed by an
added item for the after component; non-metadata changes record their
componentId as processed. -/
def buildDiffViewStep (acc : List DiffItem × List String) (ch : DiffChange) :
    List DiffItem × List String :=
  match ch with
  | DiffChange.metadata _ _ _ => acc
  | DiffChange.removed i c =>
      (acc.1 ++ [{ type := DiffItemType.removed, component := c,
                   key := "removed-" ++ i }], acc.2 ++ [i])
  | DiffChange.added i c =>
      (acc.1 ++ [{ type := DiffItemType.added, component := c,
                   key := "added-" ++ i }], acc.2 ++ [i])
  | DiffChange.modified i cb ca =>
      (acc.1 ++ [{ type := DiffItemType.removed, component := cb,
                   key := "modified-before-" ++ i },
                 { type := DiffItemType.added, component := ca,
                   key := "modified-after-" ++ i }], acc.2 ++ [i])

/-- buildDiffView from FormDiffView.jsx (lines 57-124): fold the change
list, then append every component of newComponents whose id was not
processed as an unchanged item, in newComponents order.  The oldMap and
newMap of the source are built but never read, so they do not appear;
oldComponents is kept as a parameter for the source signature. -/
def buildDiffView (diff : Diff) (_oldComponents newComponents : List FormComponent) :
    List DiffItem :=
  let folded := diff.changes.foldl buildDiffViewStep ([], [])
  folded.1 ++
    (newComponents.filter (fun c => !(folded.2.contains c.id))).map
      (fun c => { type := DiffItemType.unchanged, component := c,
                  key := "unchanged-" ++ c.id })

/-- Items a single change contributes to the diff view, stated per the
specification wording: none for metadata, one removed-styled item per
removed change, one added-styled item per added change, and for a
modified change the removed-styled before component immediately
followed by the added-styled after component. -/
def diffItemsOfChange : DiffChange → List DiffItem
  | DiffChange.metadata _ _ _ => []
  | DiffChange.removed i c =>
      [{ type := DiffItemType.removed, component := c, key := "removed-" ++ i }]
  | DiffChange.added i c =>
      [{ type := DiffItemType.added, component := c, key := "added-" ++ i }]
  | DiffChange.modified i cb ca =>
      [{ type := DiffItemType.removed, component := cb,
         key := "modified-before-" ++ i },
       { type := DiffItemType.added, component := ca,
         key := "modified-after-" ++ i }]

/-- Whether a change references the given component id (metadata
changes reference no component). -/
def referencesId (ch : DiffChange) (i : String) : Bool :=
  match ch with
  | DiffChange.metadata _ _ _ => false
  | DiffChange.removed j _ => j == i
  | DiffChange.added j _ => j == i
  | DiffChange.modified j _ _ => j == i

/-- The component id a change references, if any. -/
def changeComponentId : DiffChange → Option String
  | DiffChange.metadata _ _ _ => none
  | DiffChange.removed i _ => some i
  | DiffChange.added i _ => some i
  | DiffChange.modified i _ _ => some i

/-- The diff view as the specification words describe it: the items of
each change in change order, followed by each component of
newComponents referenced by no change, once, as an unchanged item, in
newComponents order. -/
def buildDiffViewSpec (diff : Diff) (newComponents : List FormComponent) :
    List DiffItem :=
  diff.changes.flatMap diffItemsOfChange ++
    (newComponents.filter
      (fun c => !(diff.changes.any (fun ch => referencesId ch c.id)))).map
      (fun c => { type := DiffItemType.unchanged, component := c,
                  key := "unchanged-" ++ c.id })

/-- handleChange of ShortAnswer.jsx (lines 13-21) as the value passed
to onChange, none when onChange is not invoked: nothing when disabled;
nothing when maxLength is truthy (present and non-zero) and the new
value is longer; otherwise the new value. -/
def shortAnswerHandleChange (disabled : Bool) (maxLength : Option Nat)
    (newValue : String) : Option String :=
  if disabled then none
  else
    match maxLength with
    | some m => if m ≠ 0 ∧ newValue.length > m then none else some newValue
    | none => some newValue

/-- Effect of a handleChange outcome on the stored answer: the parent
state keeps its value unless onChange fired with a new one. -/
def applyChange (value : String) (res : Option String) : String :=
  match res with
  | some v => v
  | none => value

/-- Whether a change is a removed change carrying the given component
id. -/
def isRemovedFor (i : String) : DiffChange → Bool
  | DiffChange.removed j _ => j == i
  | _ => false

/-- Whether a change is an added change carrying the given component
id. -/
def isAddedFor (i : String) : DiffChange → Bool
  | DiffChange.added j _ => j == i
  | _ => false

/-- Fixture: data of the removed component of the FormDiffView test. -/
def exData1 : ComponentData :=
  { question := "Old question?", required := false, options := [],
    allowMultiple := false, maxLength := none }

/-- Fixture: data of the added component of the FormDiffView test. -/
def exData2 : ComponentData :=
  { question := "New question?", required := true, options := [],
    allowMultiple := false, maxLength := none }

/-- Fixture: the component comp_1 of the FormDiffView test. -/
def exComp1 : FormComponent :=
  { id := "comp_1", type := CompType.shortAnswer, data := exData1 }

/-- Fixture: the component comp_2 of the FormDiffView test. -/
def exComp2 : FormComponent :=
  { id := "comp_2", type := CompType.shortAnswer, data := exData2 }

/-- Fixture: a schema holding only comp_1. -/
def exSchemaOld : FormSchema :=
  { title := "Contact", description := "", components := [exComp1] }

/-- Fixture: a schema holding only comp_2. -/
def exSchemaNew : FormSchema :=
  { title := "Contact", description := "", components := [exComp2] }

/-- Fixture: a schema holding comp_1 then comp_2. -/
def exSchemaBoth : FormSchema :=
  { title := "Contact", description := "", components := [exComp1, exComp2] }

/-- Fixture: a schema holding comp_2 then comp_1, a reordering of
exSchemaBoth. -/
def exSchemaSwapped : FormSchema :=
  { title := "Contact", description := "", components := [exComp2, exComp1] }

/-- Fixture: a single initial snapshot of exSchemaOld. -/
def exSnapshot : VersionSnapshot :=
  { schema := exSchemaOld, changeDescription := "Initial version", createdAt := 0 }

/-- Fixture: an editor state in clean mode showing exSchemaOld. -/
def exEditorState : EditorState :=
  { form := { title := "Contact", description := "", schema := some exSchemaOld },
    editedTitle := "Contact", editedDescription := "",
    editedComponents := [exComp1],
    errorMsg := "", successMsg := "",
    saving := false, processing := false,
    diffMode := false, diffData := none,
    query := "", documentsCount := 0 }

/-- Fixture: the same editor state while an AI diff is under review. -/
def exEditorStateReview : EditorState :=
  { exEditorState with diffMode := true }

/-- Fixture: an edit response replacing comp_1 by comp_2, carrying the
diff of the two schemas. -/
def exEditResult : EditResult :=
  { schema := exSchemaNew, diff := some (diffCore exSchemaOld exSchemaNew),
    title := none, description := none }

/-- Fixture: an edit response whose diff has no changes. -/
def exEditResultNoChanges : EditResult :=
  { schema := exSchemaOld, diff := some { summary := "No changes", changes := [] },
    title := none, description := none }

theorem containsId_eq_true_iff (cs : List FormComponent) (i : String) :
    containsId cs i = true ↔ ∃ c ∈ cs, c.id = i := by
  simp [containsId]

theorem containsId_of_mem {cs : List FormComponent} {c : FormComponent}
    (h : c ∈ cs) : containsId cs c.id = true :=
  (containsId_eq_true_iff cs c.id).mpr ⟨c, h, rfl⟩

theorem findById_mem_nodup (cs : List FormComponent)
    (hnd : (componentIds cs).Nodup) (c : FormComponent) (hc : c ∈ cs) :
    findById cs c.id = some c := by
  induction cs with
  | nil => cases hc
  | cons x t ih =>
    have hx : x.id ∉ componentIds t ∧ (componentIds t).Nodup := by
      simpa [componentIds] using hnd
    rcases List.mem_cons.mp hc with rfl | hmem
    · simp [findById]
    · have hne : (x.id == c.id) = false := by
        rw [beq_eq_false_iff_ne]
        intro he
        exact hx.1 (he ▸ List.mem_map_of_mem (fun y => y.id) hmem)
      unfold findById
      rw [List.find?_cons, hne]
      exact ih hx.2 hmem

theorem removedChanges_eq_nil_of_subset (b a : FormSchema)
    (h : ∀ c ∈ b.components, c ∈ a.components) : removedChanges b a = [] := by
  unfold removedChanges
  rw [List.map_eq_nil_iff, List.filter_eq_nil_iff]
  intro c hc
  simp [containsId_of_mem (h c hc)]

theorem addedChanges_eq_nil_of_subset (b a : FormSchema)
    (h : ∀ c ∈ a.components, c ∈ b.components) : addedChanges b a = [] := by
  unfold addedChanges
  rw [List.map_eq_nil_iff, List.filter_eq_nil_iff]
  intro c hc
  simp [containsId_of_mem (h c hc)]

theorem modifiedChanges_eq_nil_of_subset (b a : FormSchema)
    (hnd : (componentIds a.components).Nodup)
    (h : ∀ c ∈ b.components, c ∈ a.components) : modifiedChanges b a = [] := by
  unfold modifiedChanges
  rw [List.filterMap_eq_nil_iff]
  intro c hc
  rw [findById_mem_nodup a.components hnd c (h c hc)]
  simp

theorem diffCore_eq_empty (b a : FormSchema)
    (h1 : removedChanges b a = []) (h2 : addedChanges b a = [])
    (h3 : modifiedChanges b a = []) (h4 : metadataChanges b a = []) :
    diffCore b a = { summary := "No changes", changes := [] } := by
  simp [diffCore, h1, h2, h3, h4]
  rfl

/-- C2: diffing a schema against itself yields an empty change list and
the summary string No changes. -/
theorem schemaDiff_self (S : FormSchema)
    (h : (componentIds S.components).Nodup) :
    schemaDiff S S = Except.ok { summary := "No changes", changes := [] } := by
  unfold schemaDiff
  rw [if_pos ⟨h, h⟩]
  rw [diffCore_eq_empty]
  · exact removedChanges_eq_nil_of_subset S S (fun c hc => hc)
  · exact addedChanges_eq_nil_of_subset S S (fun c hc => hc)
  · exact modifiedChanges_eq_nil_of_subset S S h (fun c hc => hc)
  · simp [metadataChanges]

theorem schemaDiff_self_witness :
    schemaDiff exSchemaBoth exSchemaBoth =
      Except.ok { summary := "No changes", changes := [] } :=
  schemaDiff_self exSchemaBoth (by decide)

/-- C3: reordering components with identical content, with title and
description unchanged, produces an empty diff with summary No
changes. -/
theorem schemaDiff_reorder (b a : FormSchema)
    (hperm : b.components.Perm a.components)
    (ht : b.title = a.title) (hd : b.description = a.description)
    (hnb : (componentIds b.components).Nodup) :
    schemaDiff b a = Except.ok { summary := "No changes", changes := [] } := by
  have hids : (componentIds b.components).Perm (componentIds a.components) := by
    unfold componentIds
    exact hperm.map (fun c => c.id)
  have hna : (componentIds a.components).Nodup := hids.nodup_iff.mp hnb
  unfold schemaDiff
  rw [if_pos ⟨hnb, hna⟩]
  rw [diffCore_eq_empty]
  · exact removedChanges_eq_nil_of_subset b a (fun c hc => hperm.mem_iff.mp hc)
  · exact addedChanges_eq_nil_of_subset b a (fun c hc => hperm.mem_iff.mpr hc)
  · exact modifiedChanges_eq_nil_of_subset b a hna (fun c hc => hperm.mem_iff.mp hc)
  · simp [metadataChanges, ht, hd]

theorem schemaDiff_reorder_witness :
    schemaDiff exSchemaBoth exSchemaSwapped =
      Except.ok { summary := "No changes", changes := [] } :=
  schemaDiff_reorder exSchemaBoth exSchemaSwapped
    (List.Perm.swap exComp2 exComp1 []) rfl rfl (by decide)

/-- C4: undo immediately after a push succeeds and restores the prior
current schema, both as the current schema of the resulting history and
as the returned schema. -/
theorem undo_push_inverse (H : VersionHistory) (S : FormSchema) (d : String)
    (t : Nat) (h : H ≠ []) :
    (undo (push H S d t)).success = true ∧
    currentSchema (undo (push H S d t)).history = currentSchema H ∧
    (undo (push H S d t)).schema = currentSchema H := by
  cases H with
  | nil => exact absurd rfl h
  | cons r rest => exact ⟨rfl, rfl, rfl⟩

theorem undo_push_inverse_witness :
    (undo (push [exSnapshot] exSchemaNew "AI edit" 1)).success = true ∧
    currentSchema (undo (push [exSnapshot] exSchemaNew "AI edit" 1)).history =
      currentSchema [exSnapshot] ∧
    (undo (push [exSnapshot] exSchemaNew "AI edit" 1)).schema =
      currentSchema [exSnapshot] :=
  undo_push_inverse [exSnapshot] exSchemaNew "AI edit" 1 (List.cons_ne_nil _ _)

/-- C5: undo on a single-snapshot history reports failure as a normal
result with a message and an unchanged history, and both frontend undo
handlers then surface the message as the error while leaving the form
and edited components (and, for the diff handler, diff mode)
unchanged. -/
theorem undo_single_snapshot (s : VersionSnapshot) (st : EditorState) :
    (undo [s]).success = false ∧
    (undo [s]).history = [s] ∧
    (undo [s]).message = some "No history to undo" ∧
    (handleUndoResult st (undo [s])).form = st.form ∧
    (handleUndoResult st (undo [s])).editedComponents = st.editedComponents ∧
    (handleUndoResult st (undo [s])).errorMsg = "No history to undo" ∧
    (handleUndoChangesResult st (undo [s])).form = st.form ∧
    (handleUndoChangesResult st (undo [s])).editedComponents = st.editedComponents ∧
    (handleUndoChangesResult st (undo [s])).diffMode = st.diffMode ∧
    (handleUndoChangesResult st (undo [s])).errorMsg = "No history to undo" :=
  ⟨rfl, rfl, rfl, rfl, rfl, rfl, rfl, rfl, rfl, rfl⟩

/-- C6 counterevidence: the request body built by saveForm is identical
for different title and description arguments, and holds only the
schema and the change description, so a manual save does not transmit
the edited title or description. -/
theorem saveForm_body_ignores_title_description :
    saveFormRequestBody exSchemaOld "Manual save" "Title A" "Description A" =
      saveFormRequestBody exSchemaOld "Manual save" "Title B" "Description B" ∧
    saveFormRequestBody exSchemaOld "Manual save" "Title A" "Description A" =
      { schema := exSchemaOld, changeDescription := "Manual save" } :=
  ⟨rfl, rfl⟩

/-- C8: while an AI diff is under review (diffMode), the AI edit submit
button, the Undo button and the Save button are all disabled. -/
theorem diffMode_disables_actions (st : EditorState) (h : st.diffMode = true) :
    aiSubmitDisabled st = true ∧ undoButtonDisabled st = true ∧
    saveButtonDisabled st = true := by
  simp [aiSubmitDisabled, undoButtonDisabled, saveButtonDisabled, h]

theorem diffMode_disables_actions_witness :
    aiSubmitDisabled exEditorStateReview = true ∧
    undoButtonDisabled exEditorStateReview = true ∧
    saveButtonDisabled exEditorStateReview = true :=
  diffMode_disables_actions exEditorStateReview rfl

/-- C7: after a successful AI edit from a clean state, the editor is in
diff review mode exactly when the response carried a diff with a
non-empty change list; and whenever it stays out of review mode, the
diff data is untouched, so no review is surfaced. -/
theorem aiEdit_enters_review_iff (st : EditorState) (r : EditResult)
    (h : st.diffMode = false) :
    ((handleAIEditSuccess st r).diffMode = true ↔
      ∃ d, r.diff = some d ∧ d.changes ≠ []) ∧
    ((handleAIEditSuccess st r).diffMode = false →
      (handleAIEditSuccess st r).diffData = st.diffData) := by
  unfold handleAIEditSuccess
  cases hr : r.diff with
  | none =>
    refine ⟨?_, fun _ => rfl⟩
    simp [h]
  | some d =>
    dsimp only
    by_cases hc : d.changes.length > 0
    · rw [if_pos hc]
      refine ⟨⟨fun _ => ⟨d, rfl, ?_⟩, fun _ => rfl⟩, fun hfalse => ?_⟩
      · intro he
        rw [he] at hc
        exact Nat.lt_irrefl 0 hc
      · simp at hfalse
    · rw [if_neg hc]
      have hd0 : d.changes = [] :=
        List.eq_nil_of_length_eq_zero (Nat.eq_zero_of_not_pos hc)
      refine ⟨⟨fun hdm => ?_, fun hex => ?_⟩, fun _ => rfl⟩
      · have hdm2 : st.diffMode = true := hdm
        rw [h] at hdm2
        exact Bool.noConfusion hdm2
      · rcases hex with ⟨d2, hd2, hne⟩
        have : d2 = d := by
          cases hd2
          rfl
        rw [this, hd0] at hne
        exact absurd rfl hne

theorem aiEdit_enters_review_iff_witness :
    exEditorState.diffMode = false ∧
    (handleAIEditSuccess exEditorState exEditResult).diffMode = true ∧
    (handleAIEditSuccess exEditorState exEditResultNoChanges).diffMode = false :=
  ⟨rfl,
   (aiEdit_enters_review_iff exEditorState exEditResult rfl).1.mpr
     ⟨diffCore exSchemaOld exSchemaNew, rfl, by decide⟩,
   by
     have h2 := (aiEdit_enters_review_iff exEditorState exEditResultNoChanges rfl).1
     cases hd : (handleAIEditSuccess exEditorState exEditResultNoChanges).diffMode
     · rfl
     · rcases h2.mp hd with ⟨d, hsome, hne⟩
       exact absurd (by
         have : d = { summary := "No changes", changes := [] } := by
           simpa [exEditResultNoChanges] using hsome.symm
         rw [this]) hne⟩

/-- C10: the ShortAnswer change handler with a set non-zero maxLength
never calls onChange when the field is disabled or the new value is too
long, every value it does propagate fits within maxLength, and an
in-bound stored answer remains in bound after the handler runs. -/
theorem shortAnswer_maxLength_invariant (disabled : Bool) (m : Nat)
    (value newValue : String) (hm : m ≠ 0) (hv : value.length ≤ m) :
    ((disabled = true ∨ newValue.length > m) →
      shortAnswerHandleChange disabled (some m) newValue = none) ∧
    (∀ v, shortAnswerHandleChange disabled (some m) newValue = some v →
      v.length ≤ m) ∧
    (applyChange value (shortAnswerHandleChange disabled (some m) newValue)).length
      ≤ m := by
  have hchar : shortAnswerHandleChange disabled (some m) newValue =
      if disabled then none
      else if newValue.length > m then none else some newValue := by
    unfold shortAnswerHandleChange
    cases disabled with
    | true => simp
    | false =>
      by_cases hlen : newValue.length > m
      · simp [hlen, hm]
      · simp [hlen]
  rw [hchar]
  cases disabled with
  | true => simpa [applyChange] using hv
  | false =>
    by_cases hlen : newValue.length > m
    · refine ⟨fun _ => by simp [hlen], ?_, ?_⟩
      · intro v hvv
        simp [hlen] at hvv
      · simpa [applyChange, hlen] using hv
    · have hle : newValue.length ≤ m := Nat.le_of_not_lt hlen
      refine ⟨?_, ?_, ?_⟩
      · intro hor
        rcases hor with hd | hl
        · exact absurd hd (by simp)
        · exact absurd hl hlen
      · intro v hvv
        simp only [Bool.false_eq_true, if_false, if_neg hlen] at hvv
        cases hvv
        exact hle
      · simpa [applyChange, hlen] using hle

theorem shortAnswer_maxLength_invariant_witness :
    (10 : Nat) ≠ 0 ∧ ("short" : String).length ≤ 10 ∧
    shortAnswerHandleChange false (some 10) "a much longer answer" = none ∧
    (applyChange "short"
      (shortAnswerHandleChange false (some 10) "a much longer answer")).length ≤ 10 :=
  ⟨by decide, by decide,
   (shortAnswer_maxLength_invariant false 10 "short" "a much longer answer"
      (by decide) (by decide)).1 (Or.inr (by decide)),
   (shortAnswer_maxLength_invariant false 10 "short" "a much longer answer"
      (by decide) (by decide)).2.2⟩

theorem buildDiffView_foldl (l : List DiffChange) (acc : List DiffItem × List String) :
    l.foldl buildDiffViewStep acc =
      (acc.1 ++ l.flatMap diffItemsOfChange,
       acc.2 ++ l.filterMap changeComponentId) := by
  induction l generalizing acc with
  | nil => simp
  | cons ch t ih =>
    rw [List.foldl_cons, ih]
    cases ch <;> simp [buildDiffViewStep, diffItemsOfChange, changeComponentId]

theorem contains_filterMap_changeIds (l : List DiffChange) (i : String) :
    (l.filterMap changeComponentId).contains i =
      l.any (fun ch => referencesId ch i) := by
  apply Bool.eq_iff_iff.mpr
  constructor
  · intro hcont
    have hmem : i ∈ l.filterMap changeComponentId := by
      simpa using hcont
    rcases List.mem_filterMap.mp hmem with ⟨ch, hch, hid⟩
    rw [List.any_eq_true]
    refine ⟨ch, hch, ?_⟩
    cases ch <;> simp_all [changeComponentId, referencesId]
  · intro hany
    rcases List.any_eq_true.mp hany with ⟨ch, hch, href⟩
    have hmem : i ∈ l.filterMap changeComponentId := by
      apply List.mem_filterMap.mpr
      refine ⟨ch, hch, ?_⟩
      cases ch <;> simp_all [changeComponentId, referencesId]
    simpa using hmem

/-- C9: buildDiffView produces, in change order, no item for metadata
changes, one removed item per removed change, one added item per added
change, and for each modified change the removed-styled before
component immediately followed by the added-styled after component,
then appends each component of newComponents referenced by no change
exactly once as an unchanged item, in newComponents order. -/
theorem buildDiffView_eq_spec (d : Diff)
    (oldComponents newComponents : List FormComponent) :
    buildDiffView d oldComponents newComponents =
      buildDiffViewSpec d newComponents := by
  unfold buildDiffView buildDiffViewSpec
  rw [buildDiffView_foldl]
  dsimp only
  rw [List.nil_append, List.nil_append]
  congr 1
  congr 1
  apply List.filter_congr
  intro c _hc
  rw [contains_filterMap_changeIds]

theorem containsId_eq_mem (cs : List FormComponent) (i : String) :
    containsId cs i = true ↔ i ∈ componentIds cs := by
  rw [containsId_eq_true_iff]
  simp [componentIds, eq_comm]

theorem containsId_eq_false_of_not_mem {cs : List FormComponent} {i : String}
    (h : i ∉ componentIds cs) : containsId cs i = false :=
  Bool.eq_false_iff.mpr (fun ht => h ((containsId_eq_mem cs i).mp ht))

theorem count_id_nodup (cs : List FormComponent)
    (hnd : (componentIds cs).Nodup) (i : String) :
    (cs.filter (fun c => c.id == i)).length =
      if i ∈ componentIds cs then 1 else 0 := by
  induction cs with
  | nil => simp [componentIds]
  | cons x t ih =>
    have hx : x.id ∉ componentIds t ∧ (componentIds t).Nodup := by
      simpa [componentIds] using hnd
    by_cases hxi : x.id = i
    · rw [List.filter_cons_of_pos (by simp [hxi]), List.length_cons]
      have ht0 : (t.filter (fun c => c.id == i)).length = 0 := by
        rw [ih hx.2, if_neg (fun hmem => hx.1 (by rw [hxi]; exact hmem))]
      rw [ht0]
      have him : i ∈ componentIds (x :: t) := by
        simp [componentIds, hxi.symm]
      rw [if_pos him]
    · rw [List.filter_cons_of_neg (by simp [hxi]), ih hx.2]
      have hiff : i ∈ componentIds (x :: t) ↔ i ∈ componentIds t := by
        simp only [componentIds, List.map_cons, List.mem_cons]
        constructor
        · rintro (h1 | h2)
          · exact absurd h1.symm hxi
          · exact h2
        · exact Or.inr
      by_cases him : i ∈ componentIds t
      · rw [if_pos him, if_pos (hiff.mpr him)]
      · rw [if_neg him, if_neg (fun hmem => him (hiff.mp hmem))]

theorem removedChanges_shape (b a : FormSchema) (x : DiffChange)
    (hx : x ∈ removedChanges b a) :
    ∃ c, c ∈ b.components ∧ containsId a.components c.id = false ∧
      x = DiffChange.removed c.id c := by
  unfold removedChanges at hx
  rcases List.mem_map.mp hx with ⟨c, hc, rfl⟩
  rcases List.mem_filter.mp hc with ⟨hcb, hpred⟩
  refine ⟨c, hcb, ?_, rfl⟩
  simpa using hpred

theorem addedChanges_shape (b a : FormSchema) (x : DiffChange)
    (hx : x ∈ addedChanges b a) :
    ∃ c, c ∈ a.components ∧ containsId b.components c.id = false ∧
      x = DiffChange.added c.id c := by
  unfold addedChanges at hx
  rcases List.mem_map.mp hx with ⟨c, hc, rfl⟩
  rcases List.mem_filter.mp hc with ⟨hca, hpred⟩
  refine ⟨c, hca, ?_, rfl⟩
  simpa using hpred

theorem modifiedChanges_shape (b a : FormSchema) (x : DiffChange)
    (hx : x ∈ modifiedChanges b a) :
    ∃ j cb ca, x = DiffChange.modified j cb ca := by
  rcases List.mem_filterMap.mp hx with ⟨c, _, hsome⟩
  split at hsome
  · split at hsome
    · simp at hsome
    · cases hsome
      exact ⟨_, _, _, rfl⟩
  · simp at hsome

theorem metadataChanges_shape (b a : FormSchema) (x : DiffChange)
    (hx : x ∈ metadataChanges b a) :
    ∃ f bf af, x = DiffChange.metadata f bf af := by
  unfold metadataChanges at hx
  rcases List.mem_append.mp hx with h1 | h1
  · split at h1
    · cases h1
    · rw [List.mem_singleton] at h1
      exact ⟨_, _, _, h1⟩
  · split at h1
    · cases h1
    · rw [List.mem_singleton] at h1
      exact ⟨_, _, _, h1⟩

theorem removed_filter_count (b a : FormSchema)
    (hb : (componentIds b.components).Nodup) (i : String) :
    ((removedChanges b a).filter (isRemovedFor i)).length =
      if i ∈ componentIds b.components ∧ i ∉ componentIds a.components
      then 1 else 0 := by
  unfold removedChanges
  rw [List.filter_map, List.length_map]
  rw [show (isRemovedFor i ∘ fun c => DiffChange.removed c.id c) =
        (fun c => c.id == i) from rfl]
  rw [List.filter_filter]
  by_cases hia : i ∈ componentIds a.components
  · rw [if_neg (fun hcond => hcond.2 hia)]
    have hnil : b.components.filter
        (fun c => (c.id == i) && !containsId a.components c.id) = [] := by
      rw [List.filter_eq_nil_iff]
      intro c _ hptrue
      rcases Bool.and_eq_true_iff.mp hptrue with ⟨h1, h2⟩
      have hci : c.id = i := beq_iff_eq.mp h1
      rw [hci, (containsId_eq_mem a.components i).mpr hia] at h2
      exact Bool.noConfusion h2
    rw [hnil]
    rfl
  · by_cases hib : i ∈ componentIds b.components
    · rw [if_pos ⟨hib, hia⟩]
      have hcong : ∀ c ∈ b.components,
          ((c.id == i) && !containsId a.components c.id) = (c.id == i) := by
        intro c _
        cases hci : (c.id == i) with
        | false => rfl
        | true =>
          rw [beq_iff_eq.mp hci, containsId_eq_false_of_not_mem hia]
          rfl
      rw [List.filter_congr hcong, count_id_nodup b.components hb i, if_pos hib]
    · rw [if_neg (fun hcond => hib hcond.1)]
      have hnil : b.components.filter
          (fun c => (c.id == i) && !containsId a.components c.id) = [] := by
        rw [List.filter_eq_nil_iff]
        intro c hc hptrue
        rcases Bool.and_eq_true_iff.mp hptrue with ⟨h1, _⟩
        exact hib (by
          rw [← beq_iff_eq.mp h1]
          exact List.mem_map_of_mem (fun c => c.id) hc)
      rw [hnil]
      rfl

theorem added_filter_count (b a : FormSchema)
    (ha : (componentIds a.components).Nodup) (i : String) :
    ((addedChanges b a).filter (isAddedFor i)).length =
      if i ∈ componentIds a.components ∧ i ∉ componentIds b.components
      then 1 else 0 := by
  unfold addedChanges
  rw [List.filter_map, List.length_map]
  rw [show (isAddedFor i ∘ fun c => DiffChange.added c.id c) =
        (fun c => c.id == i) from rfl]
  rw [List.filter_filter]
  by_cases hib : i ∈ componentIds b.components
  · rw [if_neg (fun hcond => hcond.2 hib)]
    have hnil : a.components.filter
        (fun c => (c.id == i) && !containsId b.components c.id) = [] := by
      rw [List.filter_eq_nil_iff]
      intro c _ hptrue
      rcases Bool.and_eq_true_iff.mp hptrue with ⟨h1, h2⟩
      rw [beq_iff_eq.mp h1, (containsId_eq_mem b.components i).mpr hib] at h2
      exact Bool.noConfusion h2
    rw [hnil]
    rfl
  · by_cases hia : i ∈ componentIds a.components
    · rw [if_pos ⟨hia, hib⟩]
      have hcong : ∀ c ∈ a.components,
          ((c.id == i) && !containsId b.components c.id) = (c.id == i) := by
        intro c _
        cases hci : (c.id == i) with
        | false => rfl
        | true =>
          rw [beq_iff_eq.mp hci, containsId_eq_false_of_not_mem hib]
          rfl
      rw [List.filter_congr hcong, count_id_nodup a.components ha i, if_pos hia]
    · rw [if_neg (fun hcond => hia hcond.1)]
      have hnil : a.components.filter
          (fun c => (c.id == i) && !containsId b.components c.id) = [] := by
        rw [List.filter_eq_nil_iff]
        intro c hc hptrue
        rcases Bool.and_eq_true_iff.mp hptrue with ⟨h1, _⟩
        exact hia (by
          rw [← beq_iff_eq.mp h1]
          exact List.mem_map_of_mem (fun c => c.id) hc)
      rw [hnil]
      rfl

/-- C1: for schemas accepted by the differ (no duplicate ids), every id
present in before and absent from after yields exactly one removed
change and every id present in after and absent from before exactly one
added change, no other removed or added changes exist, and removed and
added changes carry the matching component of before resp. after. -/
theorem schemaDiff_removed_added_exact (b a : FormSchema) (d : Diff)
    (h : schemaDiff b a = Except.ok d) :
    (∀ i : String,
      (d.changes.filter (isRemovedFor i)).length =
        if i ∈ componentIds b.components ∧ i ∉ componentIds a.components
        then 1 else 0) ∧
    (∀ i : String,
      (d.changes.filter (isAddedFor i)).length =
        if i ∈ componentIds a.components ∧ i ∉ componentIds b.components
        then 1 else 0) ∧
    (∀ i c, DiffChange.removed i c ∈ d.changes →
      c ∈ b.components ∧ c.id = i) ∧
    (∀ i c, DiffChange.added i c ∈ d.changes →
      c ∈ a.components ∧ c.id = i) := by
  unfold schemaDiff at h
  split at h
  case isFalse => exact absurd h (by simp)
  case isTrue hnd =>
    cases h
    have hchanges : (diffCore b a).changes =
        removedChanges b a ++ addedChanges b a ++ modifiedChanges b a ++
          metadataChanges b a := rfl
    have hremAdd : ∀ i, (addedChanges b a).filter (isRemovedFor i) = [] := by
      intro i
      rw [List.filter_eq_nil_iff]
      intro x hx hp
      rcases addedChanges_shape b a x hx with ⟨c, _, _, rfl⟩
      exact Bool.noConfusion hp
    have hremMod : ∀ i, (modifiedChanges b a).filter (isRemovedFor i) = [] := by
      intro i
      rw [List.filter_eq_nil_iff]
      intro x hx hp
      rcases modifiedChanges_shape b a x hx with ⟨j, cb, ca, rfl⟩
      exact Bool.noConfusion hp
    have hremMeta : ∀ i, (metadataChanges b a).filter (isRemovedFor i) = [] := by
      intro i
      rw [List.filter_eq_nil_iff]
      intro x hx hp
      rcases metadataChanges_shape b a x hx with ⟨f, bf, af, rfl⟩
      exact Bool.noConfusion hp
    have haddRem : ∀ i, (removedChanges b a).filter (isAddedFor i) = [] := by
      intro i
      rw [List.filter_eq_nil_iff]
      intro x hx hp
      rcases removedChanges_shape b a x hx with ⟨c, _, _, rfl⟩
      exact Bool.noConfusion hp
    have haddMod : ∀ i, (modifiedChanges b a).filter (isAddedFor i) = [] := by
      intro i
      rw [List.filter_eq_nil_iff]
      intro x hx hp
      rcases modifiedChanges_shape b a x hx with ⟨j, cb, ca, rfl⟩
      exact Bool.noConfusion hp
    have haddMeta : ∀ i, (metadataChanges b a).filter (isAddedFor i) = [] := by
      intro i
      rw [List.filter_eq_nil_iff]
      intro x hx hp
      rcases metadataChanges_shape b a x hx with ⟨f, bf, af, rfl⟩
      exact Bool.noConfusion hp
    refine ⟨?_, ?_, ?_, ?_⟩
    · intro i
      rw [hchanges]
      rw [List.filter_append, List.filter_append, List.filter_append]
      rw [hremAdd i, hremMod i, hremMeta i]
      simp only [List.append_nil]
      exact removed_filter_count b a hnd.1 i
    · intro i
      rw [hchanges]
      rw [List.filter_append, List.filter_append, List.filter_append]
      rw [haddRem i, haddMod i, haddMeta i]
      simp only [List.nil_append, List.append_nil]
      exact added_filter_count b a hnd.2 i
    · intro i c hmem
      rw [hchanges] at hmem
      simp only [List.mem_append] at hmem
      rcases hmem with ((hx | hx) | hx) | hx
      · rcases removedChanges_shape b a _ hx with ⟨c0, hc0, _, heq⟩
        cases heq
        exact ⟨hc0, rfl⟩
      · rcases addedChanges_shape b a _ hx with ⟨c0, _, _, heq⟩
        exact absurd heq (by simp)
      · rcases modifiedChanges_shape b a _ hx with ⟨j, cb, ca, heq⟩
        exact absurd heq (by simp)
      · rcases metadataChanges_shape b a _ hx with ⟨f, bf, af, heq⟩
        exact absurd heq (by simp)
    · intro i c hmem
      rw [hchanges] at hmem
      simp only [List.mem_append] at hmem
      rcases hmem with ((hx | hx) | hx) | hx
      · rcases removedChanges_shape b a _ hx with ⟨c0, _, _, heq⟩
        exact absurd heq (by simp)
      · rcases addedChanges_shape b a _ hx with ⟨c0, hc0, _, heq⟩
        cases heq
        exact ⟨hc0, rfl⟩
      · rcases modifiedChanges_shape b a _ hx with ⟨j, cb, ca, heq⟩
        exact absurd heq (by simp)
      · rcases metadataChanges_shape b a _ hx with ⟨f, bf, af, heq⟩
        exact absurd heq (by simp)

theorem schemaDiff_removed_added_exact_witness :
    schemaDiff exSchemaOld exSchemaNew =
      Except.ok (diffCore exSchemaOld exSchemaNew) ∧
    ((diffCore exSchemaOld exSchemaNew).changes.filter
        (isRemovedFor "comp_1")).length = 1 ∧
    ((diffCore exSchemaOld exSchemaNew).changes.filter
        (isAddedFor "comp_2")).length = 1 := by
  have hok : schemaDiff exSchemaOld exSchemaNew =
      Except.ok (diffCore exSchemaOld exSchemaNew) := by
    unfold schemaDiff
    rw [if_pos ⟨by decide, by decide⟩]
  have h := schemaDiff_removed_added_exact exSchemaOld exSchemaNew
    (diffCore exSchemaOld exSchemaNew) hok
  refine ⟨hok, ?_, ?_⟩
  · rw [h.1 "comp_1", if_pos (by decide)]
  · rw [h.2.1 "comp_2", if_pos (by decide)]

end FormFlow
